import Mathlib

/-!
Verification of the `simpleSessions` Go package (markorm/Simple-Sessions).

The package is embedded shallowly:

* `time.Time` and `time.Duration` are modelled as `Int` (nanoseconds); the
  comparisons `Expires.After(now)` and `Expires.Before(now)` become the strict
  orders `now < Expires` and `Expires < now`.  Go re-reads the clock inside a
  single call (`time.Now()` appears in loop bodies); each operation here takes
  one `now : Int` parameter and treats it as constant for the duration of the
  call, which is faithful up to sub-call clock drift.
* Go slices are shared views into an underlying array.  The package removes
  slice elements with `append(s[:i], s[i+1:]...)` while `range`-iterating the
  same slice; the `range` loop keeps iterating the array positions of its
  original header, reading elements the `append` has shifted in place.  The
  loops below therefore carry the full underlying array `arr : List Session`
  together with the current slice length `n`, mirroring the Go aliasing
  exactly.  Slicing past the current length (`s[i+1:]` with `i + 1 > len(s)`)
  panics in Go; a panicking execution is modelled as `none`.
* `MakeSID` is embedded literally: HMAC-SHA256 of `salt + now` keyed with
  itself, base64-encoded with the standard alphabet and padding.  The
  timestamp string uses `toString now` in place of Go's date rendering of
  `time.Now().String()`; all claims depend only on the token being a
  deterministic function of salt and call time.
-/

namespace SimpleSessions

/-! ## Bytes, SHA-256, HMAC, base64 (for `MakeSID`) -/

/-- Bytes of a string, as `[]byte(s)` in Go.  `Char.toNat` agrees with UTF-8
for the ASCII strings the development instantiates it with. -/
def strBytes (s : String) : List Nat := s.toList.map Char.toNat

/-- Truncation to a 32-bit word. -/
def w32 (x : Nat) : Nat := x % 4294967296

/-- 32-bit right rotation. -/
def rotr (n x : Nat) : Nat := w32 ((x >>> n) ||| (x <<< (32 - n)))

/-- SHA-256 `Ch` function. -/
def shaCh (e f g : Nat) : Nat := (e &&& f) ^^^ ((e ^^^ 4294967295) &&& g)

/-- SHA-256 `Maj` function. -/
def shaMaj (a b c : Nat) : Nat := (a &&& b) ^^^ (a &&& c) ^^^ (b &&& c)

/-- SHA-256 big sigma 0. -/
def bsig0 (x : Nat) : Nat := rotr 2 x ^^^ rotr 13 x ^^^ rotr 22 x

/-- SHA-256 big sigma 1. -/
def bsig1 (x : Nat) : Nat := rotr 6 x ^^^ rotr 11 x ^^^ rotr 25 x

/-- SHA-256 small sigma 0. -/
def ssig0 (x : Nat) : Nat := rotr 7 x ^^^ rotr 18 x ^^^ (x >>> 3)

/-- SHA-256 small sigma 1. -/
def ssig1 (x : Nat) : Nat := rotr 17 x ^^^ rotr 19 x ^^^ (x >>> 10)

/-- SHA-256 round constants (the 64 words 428a2f98, 71374491, …, c67178f2,
written in decimal). -/
def shaK : List Nat :=
  [1116352408, 1899447441, 3049323471, 3921009573, 961987163,
   1508970993, 2453635748, 2870763221, 3624381080, 310598401,
   607225278, 1426881987, 1925078388, 2162078206, 2614888103,
   3248222580, 3835390401, 4022224774, 264347078, 604807628,
   770255983, 1249150122, 1555081692, 1996064986, 2554220882,
   2821834349, 2952996808, 3210313671, 3336571891, 3584528711,
   113926993, 338241895, 666307205, 773529912, 1294757372,
   1396182291, 1695183700, 1986661051, 2177026350, 2456956037,
   2730485921, 2820302411, 3259730800, 3345764771, 3516065817,
   3600352804, 4094571909, 275423344, 430227734, 506948616,
   659060556, 883997877, 958139571, 1322822218, 1537002063,
   1747873779, 1955562222, 2024104815, 2227730452, 2361852424,
   2428436474, 2756734187, 3204031479, 3329325298]

/-- SHA-256 initial hash state (6a09e667, …, 5be0cd19 in decimal). -/
def shaH0 : List Nat :=
  [1779033703, 3144134277, 1013904242, 2773480762,
   1359893119, 2600822924, 528734635, 1541459225]

/-- Big-endian bytes of `n`, `k` bytes wide. -/
def natToBytesBE : Nat → Nat → List Nat
  | 0, _ => []
  | k + 1, n => natToBytesBE k (n / 256) ++ [n % 256]

/-- Group big-endian bytes into 32-bit words (length divisible by 4). -/
def bytesToWords : List Nat → List Nat
  | b0 :: b1 :: b2 :: b3 :: rest =>
      (b0 <<< 24 ||| b1 <<< 16 ||| b2 <<< 8 ||| b3) :: bytesToWords rest
  | _ => []

/-- Extend a 16-word block to the 64-word message schedule; `k` words remain
to be appended. -/
def shaSchedule : Nat → List Nat → List Nat
  | 0, w => w
  | k + 1, w =>
      let t := w.length
      let nw := w32 (ssig1 (w.getD (t - 2) 0) + w.getD (t - 7) 0 +
                     ssig0 (w.getD (t - 15) 0) + w.getD (t - 16) 0)
      shaSchedule k (w ++ [nw])

/-- One SHA-256 round on the working variables `[a, b, c, d, e, f, g, h]`. -/
def shaRound (st : List Nat) (kw : Nat × Nat) : List Nat :=
  match st with
  | [a, b, c, d, e, f, g, h] =>
      let t1 := w32 (h + bsig1 e + shaCh e f g + kw.1 + kw.2)
      let t2 := w32 (bsig0 a + shaMaj a b c)
      [w32 (t1 + t2), a, b, c, w32 (d + t1), e, f, g]
  | other => other

/-- Compress one 64-byte block into the hash state. -/
def shaBlock (h : List Nat) (block : List Nat) : List Nat :=
  let w := shaSchedule 48 (bytesToWords block)
  let st := (shaK.zip w |>.map (fun p => (p.2, p.1))).foldl shaRound h
  (h.zip st).map fun p => w32 (p.1 + p.2)

/-- Fold the padded message, 64 bytes at a time, into the hash state. -/
def shaBlocks : Nat → List Nat → List Nat → List Nat
  | 0, h, _ => h
  | fuel + 1, h, msg =>
      if msg.isEmpty then h
      else shaBlocks fuel (shaBlock h (msg.take 64)) (msg.drop 64)

/-- SHA-256 padding: `0x80`, zeros to 56 mod 64, 64-bit big-endian bit length. -/
def shaPad (msg : List Nat) : List Nat :=
  let l := msg.length
  msg ++ [0x80] ++ List.replicate ((119 - l % 64) % 64) 0 ++
    natToBytesBE 8 (8 * l)

/-- SHA-256 digest (32 bytes) of a byte message. -/
def sha256 (msg : List Nat) : List Nat :=
  let padded := shaPad msg
  (shaBlocks (padded.length / 64) shaH0 padded).flatMap (natToBytesBE 4)

/-- HMAC-SHA256 with a 64-byte block size, as `crypto/hmac` with
`crypto/sha256`. -/
def hmacSha256 (key msg : List Nat) : List Nat :=
  let k0 := if key.length > 64 then sha256 key else key
  let k := k0 ++ List.replicate (64 - k0.length) 0
  sha256 ((k.map (· ^^^ 0x5c)) ++ sha256 ((k.map (· ^^^ 0x36)) ++ msg))

/-- The standard base64 alphabet. -/
def b64alphabet : List Char :=
  "ABCDEFGHIJKLMNOPQRSTUVWXYZabcdefghijklmnopqrstuvwxyz0123456789+/".toList

/-- Standard base64 encoding with padding, as `base64.StdEncoding`. -/
def b64encode : List Nat → List Char
  | a :: b :: c :: rest =>
      b64alphabet.getD (a >>> 2) 'A' ::
      b64alphabet.getD (((a &&& 3) <<< 4) ||| (b >>> 4)) 'A' ::
      b64alphabet.getD (((b &&& 15) <<< 2) ||| (c >>> 6)) 'A' ::
      b64alphabet.getD (c &&& 63) 'A' :: b64encode rest
  | [a, b] =>
      [b64alphabet.getD (a >>> 2) 'A',
       b64alphabet.getD (((a &&& 3) <<< 4) ||| (b >>> 4)) 'A',
       b64alphabet.getD ((b &&& 15) <<< 2) 'A', '=']
  | [a] =>
      [b64alphabet.getD (a >>> 2) 'A',
       b64alphabet.getD ((a &&& 3) <<< 4) 'A', '=', '=']
  | [] => []

/-- `MakeSID`: the key is `salt` concatenated with the rendered call time;
the token is the base64 encoding of the HMAC-SHA256 of the key, keyed with
itself (`h := hmac.New(sha256.New, key); h.Write(key)`). -/
def MakeSID (salt : String) (now : Int) : String :=
  let key := strBytes (salt ++ toString now)
  String.mk (b64encode (hmacSha256 key key))

/-! ## Data model -/

/-- The fields of `http.Cookie` the package reads or writes. -/
structure HTTPCookie where
  Name : String
  Value : String
  Expires : Int
  deriving DecidableEq, Repr

/-- `Session`: id string, expiry instant, user id (`-1` marks a guest) and a
cookie pointer (`*http.Cookie`, `none` for `nil` — `NewSession` leaves it
unset). -/
structure Session where
  Id : String
  Expires : Int
  Uid : Int
  Cookie : Option HTTPCookie
  deriving DecidableEq, Repr

/-- `SessionOptions`: cookie name, hash salt and the timeout factor that is
multiplied by `time.Minute`. -/
structure SessionOptions where
  CookieName : String
  Salt : String
  Timeout : Int
  deriving DecidableEq, Repr

/-- `SessionManager`: the options and the session slice. -/
structure SessionManager where
  Options : SessionOptions
  Sessions : List Session
  deriving DecidableEq, Repr

/-- `NewSessionManager`: fresh manager with an empty session slice. -/
def NewSessionManager (opts : SessionOptions) : SessionManager :=
  { Options := opts, Sessions := [] }

/-! ## Slice surgery

`ClearExpired`, `DeleteSession` and `GetSession` all remove elements with
`sm.Sessions = append(sm.Sessions[:i], sm.Sessions[i+1:]...)` from inside a
`range` loop over the same slice.  The `append` rewrites the shared backing
array in place (the capacity always suffices, so no reallocation happens):
positions `i … n-2` receive the values shifted down one place and positions
from `n-1` on keep their old values, where `n` is the slice length at that
moment.  The `range` loop, meanwhile, keeps reading the array positions of
the header it captured when the loop started.  Each loop below therefore
carries the full backing array `arr` (its length never changes) next to the
current slice length `n`; the visible slice is `arr.take n`.  Go panics on
`sm.Sessions[i+1:]` when `i + 1` exceeds the slice length `n`; that panic is
modelled as `none`. -/

/-- Effect of `append(s[:i], s[i+1:]...)` on the backing array when the slice
currently has length `n`. -/
def removeAt (arr : List Session) (n i : Nat) : List Session :=
  arr.take i ++ (arr.drop (i + 1)).take (n - 1 - i) ++ arr.drop (n - 1)

/-! ## Operations -/

/-- Loop of `ClearExpired`: `fuel` iterations remain, `i` indexes the backing
array `arr`, `n` is the current slice length and `count` the removals so
far.  Returns the final array, slice length and count, or `none` on panic. -/
def clearGo (now : Int) : Nat → List Session → Nat → Nat → Nat →
    Option (List Session × Nat × Nat)
  | 0, arr, n, _, count => some (arr, n, count)
  | fuel + 1, arr, n, i, count =>
    match arr[i]? with
    | none => some (arr, n, count)
    | some s =>
      if s.Expires < now then
        if i + 1 ≤ n then
          clearGo now fuel (removeAt arr n i) (n - 1) (i + 1) (count + 1)
        else none
      else clearGo now fuel arr n (i + 1) count

/-- `ClearExpired`: sweep the table for sessions with `Expires` strictly
before `now`, returning the updated manager and the number of removals
performed. -/
def ClearExpired (now : Int) (sm : SessionManager) : Option (SessionManager × Nat) :=
  (clearGo now sm.Sessions.length sm.Sessions sm.Sessions.length 0 0).map
    fun r => ({ sm with Sessions := r.1.take r.2.1 }, r.2.2)

/-- Loop of `GetSession`: scan for `s.Id == id && s.Expires.After(now)`;
return the first hit (a copy of the loop variable, not a pointer into the
table), calling `ClearExpired` after every miss.  The sweep mutates the same
backing array the outer `range` header points into. -/
def getGo (now : Int) (id : String) : Nat → List Session → Nat → Nat →
    Option (Option Session × List Session × Nat)
  | 0, arr, n, _ => some (none, arr, n)
  | fuel + 1, arr, n, i =>
    match arr[i]? with
    | none => some (none, arr, n)
    | some s =>
      if s.Id = id ∧ now < s.Expires then some (some s, arr, n)
      else
        match clearGo now n arr n 0 0 with
        | none => none
        | some (arr2, n2, _) => getGo now id fuel arr2 n2 (i + 1)

/-- `GetSession`: the returned session (a detached copy), the error value and
the manager after the side-effecting sweeps; `none` on panic. -/
def GetSession (now : Int) (sm : SessionManager) (id : String) :
    Option (Option Session × Option String × SessionManager) :=
  (getGo now id sm.Sessions.length sm.Sessions sm.Sessions.length 0).map
    fun r =>
      (r.1, if r.1.isSome then none else some "No session found",
       { sm with Sessions := r.2.1.take r.2.2 })

/-- `GetUserSession`: scan the whole slice, remembering the id of every
session whose `Uid` matches (so the last match wins); no expiry check. -/
def GetUserSession (sm : SessionManager) (uid : Int) : String × Option String :=
  let r := sm.Sessions.foldl
    (fun (acc : String × Bool) s => if s.Uid = uid then (s.Id, true) else acc)
    ("", false)
  (r.1, if r.2 then none else some "No session found for a user with this id")

/-- The record `NewSession` builds: generated id, `now` plus
`Timeout * time.Minute` (`time.Minute` is `6·10^10` nanoseconds; Go's
`Duration` product wraps at `2^63`, which the unbounded model elides — the
two agree whenever `|Timeout| · 6·10^10 < 2^63`), the given uid, and a `nil`
cookie pointer. -/
def newRecord (opts : SessionOptions) (now : Int) (uid : Int) : Session :=
  { Id := MakeSID opts.Salt now
    Expires := now + opts.Timeout * 60000000000
    Uid := uid
    Cookie := none }

/-- `NewSession`: append the new record and return its id; no error path. -/
def NewSession (now : Int) (sm : SessionManager) (uid : Int) :
    SessionManager × String :=
  let s := newRecord sm.Options now uid
  ({ sm with Sessions := sm.Sessions ++ [s] }, s.Id)

/-- Loop of `DeleteSession`: remove every element whose `Id` equals `sid`,
with the same in-place `append` as `ClearExpired`. -/
def deleteGo (sid : String) : Nat → List Session → Nat → Nat →
    Option (List Session × Nat)
  | 0, arr, n, _ => some (arr, n)
  | fuel + 1, arr, n, i =>
    match arr[i]? with
    | none => some (arr, n)
    | some s =>
      if s.Id = sid then
        if i + 1 ≤ n then deleteGo sid fuel (removeAt arr n i) (n - 1) (i + 1)
        else none
      else deleteGo sid fuel arr n (i + 1)

/-- `DeleteSession`: the manager after the removal loop, or `none` on panic.
The Go function returns nothing, so there is no error value to model. -/
def DeleteSession (sm : SessionManager) (sid : String) : Option SessionManager :=
  (deleteGo sid sm.Sessions.length sm.Sessions sm.Sessions.length 0).map
    fun r => { sm with Sessions := r.1.take r.2 }

/-- `SetCookie`: dereference the session's cookie pointer and overwrite its
name, value and expiry (the subsequent `http.SetCookie` write to the response
is external transport, outside the model).  A `nil` cookie pointer — which is
what every record built by `NewSession` carries — panics in Go, modelled as
`none`. -/
def SetCookie (sm : SessionManager) (s : Session) : Option HTTPCookie :=
  match s.Cookie with
  | none => none
  | some c =>
    some { c with Name := sm.Options.CookieName, Value := s.Id,
                  Expires := s.Expires }

/-- `SetUID`: scan the whole slice for a session whose `Uid` already equals
`uid`, remembering the id of the last such session and setting the error; if
no session matched, write `uid` into the record behind the passed pointer.
Records obtained through the public API are detached copies (`GetSession`
returns the address of its loop variable), so the write never reaches the
table; the function returns the possibly-updated record explicitly. -/
def SetUID (sm : SessionManager) (session : Session) (uid : Int) :
    String × Option String × Session :=
  let r := sm.Sessions.foldl
    (fun (acc : String × Option String) s =>
      if s.Uid = uid then (s.Id, some "Session already exists") else acc)
    ("", none)
  match r.2 with
  | none => (r.1, none, { session with Uid := uid })
  | some e => (r.1, some e, session)

/-- Last element of `l` satisfying `p`, if any.  `GetUserSession` and
`SetUID` overwrite their accumulator on every match, so the last match is
the one they report. -/
def lastMatch (p : Session → Bool) : List Session → Option Session
  | [] => none
  | s :: t =>
    match lastMatch p t with
    | some r => some r
    | none => if p s then some s else none

/-- No two live records with a non-guest uid share that uid — invariant I2
evaluated at instant `now`. -/
def NoDupLiveUid (now : Int) (l : List Session) : Prop :=
  l.Pairwise fun a b =>
    a.Uid ≠ -1 → b.Uid ≠ -1 → now < a.Expires → now < b.Expires → a.Uid ≠ b.Uid

/-- The registry calls a host application can make, with the clock value
each call observes. -/
inductive Op where
  | create (now : Int) (uid : Int)
  | lookup (now : Int) (id : String)
  | lookupUser (uid : Int)
  | bindUid (sess : Session) (uid : Int)
  | delete (id : String)
  | sweep (now : Int)

/-- One registry call: the manager after the call, or `none` if it panicked.
`GetUserSession` only reads the table, and `SetUID` writes only through the
passed pointer — which the public API hands out as a detached copy of a
loop variable — so both leave the manager unchanged. -/
def applyOp (sm : SessionManager) : Op → Option SessionManager
  | .create now uid => some (NewSession now sm uid).1
  | .lookup now id => (GetSession now sm id).map fun r => r.2.2
  | .lookupUser _ => some sm
  | .bindUid _ _ => some sm
  | .delete id => DeleteSession sm id
  | .sweep now => (ClearExpired now sm).map fun r => r.1

/-- Run a call sequence against a manager state. -/
def runOps (sm : SessionManager) : List Op → Option SessionManager
  | [] => some sm
  | op :: rest =>
    match applyOp sm op with
    | none => none
    | some sm2 => runOps sm2 rest

/-- The records the `create` calls of a sequence build; they depend only on
the options, the call time and the uid, never on the table contents. -/
def createdRecords (opts : SessionOptions) : List Op → List Session
  | [] => []
  | .create now uid :: rest => newRecord opts now uid :: createdRecords opts rest
  | .lookup _ _ :: rest => createdRecords opts rest
  | .lookupUser _ :: rest => createdRecords opts rest
  | .bindUid _ _ :: rest => createdRecords opts rest
  | .delete _ :: rest => createdRecords opts rest
  | .sweep _ :: rest => createdRecords opts rest

/-- The uids passed to the `create` calls of a sequence, in order. -/
def createdUids : List Op → List Int
  | [] => []
  | .create _ uid :: rest => uid :: createdUids rest
  | .lookup _ _ :: rest => createdUids rest
  | .lookupUser _ :: rest => createdUids rest
  | .bindUid _ _ :: rest => createdUids rest
  | .delete _ :: rest => createdUids rest
  | .sweep _ :: rest => createdUids rest

end SimpleSessions

namespace SimpleSessions

/-! ## Claim theorems -/

/-- C2 (code bug): `ClearExpired` is specified (by its own doc comment and
the spec) to remove every expired session and return the number removed.  On
the table `[a(expires 10), b(expires 20), c(expires 900)]` at `now = 100`
holding two expired sessions and one live one, the in-place `append` inside
the `range` loop shifts `b` into the slot the loop has already passed, so the
call removes only `a`, returns 1 instead of 2, and leaves the expired `b` in
the table. -/
theorem clearExpired_skips_shifted_expired_session :
    ClearExpired 100
      { Options := ⟨"sid", "s3cret", 30⟩,
        Sessions := [⟨"a", 10, -1, none⟩, ⟨"b", 20, -1, none⟩,
                     ⟨"c", 900, -1, none⟩] } =
      some ({ Options := ⟨"sid", "s3cret", 30⟩,
              Sessions := [⟨"b", 20, -1, none⟩, ⟨"c", 900, -1, none⟩] }, 1) := by
  decide

/-- C4 (code bug): `GetSession` is specified to return the live record whose
id matches whenever one is in the table.  At `now = 100`, looking up `"m"` in
`[e(expires 50), m(expires 200), x(expires 200)]`: the miss on `e` triggers
the sweep, which shifts `m` down into the already-visited slot 0; the loop
resumes at slot 1, now holding `x`, so the live matching record `m` is never
seen and the call reports the not-found error. -/
theorem getSession_misses_live_record_after_sweep_shift :
    GetSession 100
      { Options := ⟨"sid", "s3cret", 30⟩,
        Sessions := [⟨"e", 50, -1, none⟩, ⟨"m", 200, -1, none⟩,
                     ⟨"x", 200, 7, none⟩] } "m" =
      some (none, some "No session found",
            { Options := ⟨"sid", "s3cret", 30⟩,
              Sessions := [⟨"m", 200, -1, none⟩, ⟨"x", 200, 7, none⟩] }) ∧
    (⟨"m", 200, -1, none⟩ : Session) ∈
      [(⟨"e", 50, -1, none⟩ : Session), ⟨"m", 200, -1, none⟩,
       ⟨"x", 200, 7, none⟩] ∧
    (100 : Int) < 200 := by
  decide

/-- C9 (counterexample): the claim says every `GetSession` call sweeps the
whole table so that no expired record survives the call.  But the sweep runs
only after a missed record: when the first record is a live match the
function returns at once, and the expired record behind it
(`Expires = 50 ≤ now = 100`) is still in the table afterwards. -/
theorem getSession_returns_match_without_sweeping :
    GetSession 100
      { Options := ⟨"sid", "s3cret", 30⟩,
        Sessions := [⟨"m", 200, -1, none⟩, ⟨"e", 50, -1, none⟩] } "m" =
      some (some ⟨"m", 200, -1, none⟩, none,
            { Options := ⟨"sid", "s3cret", 30⟩,
              Sessions := [⟨"m", 200, -1, none⟩, ⟨"e", 50, -1, none⟩] }) ∧
    (50 : Int) ≤ 100 := by
  decide

/-- C3 (counterexample): the claim says `SetUID` signals the already-bound
error exactly when some other *live* record carries the uid.  The code never
checks expiry: binding uid 42 when the only holder of 42 is the expired
record `a` (`Expires = 50`, while the claim's "live" would demand
`now < Expires` for any present time `now ≥ 50`) still reports the error and
the stale token `"a"`, and leaves the passed record unchanged. -/
theorem setUID_flags_expired_holder :
    SetUID { Options := ⟨"sid", "s3cret", 30⟩,
             Sessions := [⟨"a", 50, 42, none⟩] }
        ⟨"m", 900, -1, none⟩ 42 =
      ("a", some "Session already exists", ⟨"m", 900, -1, none⟩) ∧
    ∀ s ∈ [(⟨"a", 50, 42, none⟩ : Session)], ¬(100 : Int) < s.Expires := by
  decide

/-- C8 (counterexample): the claim says `GetUserSession` returns the token of
the *first* record whose uid matches.  With two records carrying uid 42 the
loop keeps overwriting its accumulator, so the call returns the token of the
last match, `"b"`, not that of the first match `"a"`. -/
theorem getUserSession_returns_last_match :
    List.find? (fun s => s.Uid == 42)
        [(⟨"a", 900, 42, none⟩ : Session), ⟨"b", 900, 42, none⟩] =
      some ⟨"a", 900, 42, none⟩ ∧
    GetUserSession { Options := ⟨"sid", "s3cret", 30⟩,
                     Sessions := [⟨"a", 900, 42, none⟩, ⟨"b", 900, 42, none⟩] }
        42 = ("b", none) ∧
    ("b" : String) ≠ "a" := by
  decide

set_option maxRecDepth 100000 in
set_option maxHeartbeats 1000000 in
/-- C1 (code bug): the spec scenario with config
`{cookieName "sid", secret "s3cret", ttl 30 minutes}`.  Every step behaves as
claimed except the fourth: after `create(-1)`, `lookupByToken(T1)` returns
the guest record and `bind(record, 42)` signals success — but the bind wrote
into the detached copy `GetSession` returned (the address of its loop
variable), never into the table.  So after `create(7)` the table still holds
no record with uid 42 and the second bind *also* signals success instead of
the claimed `AlreadyBound` with `T1`.  `delete(T1)` and the final
`NotFound` lookup behave as claimed.  Call times 0, 10, 20, 30, 40 ns keep
every record live (ttl is 30 minutes). -/
theorem scenario_second_bind_reports_success :
    let opts : SessionOptions := ⟨"sid", "s3cret", 30⟩
    let sm1 := (NewSession 0 (NewSessionManager opts) (-1)).1
    let t1 := (NewSession 0 (NewSessionManager opts) (-1)).2
    let r1 := newRecord opts 0 (-1)
    let sm2 := (NewSession 20 sm1 7).1
    let t2 := (NewSession 20 sm1 7).2
    let r2 := newRecord opts 20 7
    GetSession 10 sm1 t1 = some (some r1, none, sm1) ∧
    r1.Uid = -1 ∧
    SetUID sm1 r1 42 = ("", none, { r1 with Uid := 42 }) ∧
    SetUID sm2 r2 42 = ("", none, { r2 with Uid := 42 }) ∧
    DeleteSession sm2 t1 = some { Options := opts, Sessions := [r2] } ∧
    GetSession 40 { Options := opts, Sessions := [r2] } t1 =
      some (none, some "No session found",
            { Options := opts, Sessions := [r2] }) ∧
    t1 ≠ t2 := by
  decide

/-- C6 (confirmed): `NewSession` appends exactly one record, with the given
uid and with expiry `now` plus the configured timeout times `time.Minute`
(`6·10^10` ns), and returns that record's id.  The function's type has no
error component, matching "no error condition". -/
theorem newSession_appends_one_record (now uid : Int) (sm : SessionManager) :
    ∃ r : Session,
      (NewSession now sm uid).1.Sessions = sm.Sessions ++ [r] ∧
      (NewSession now sm uid).1.Options = sm.Options ∧
      r.Uid = uid ∧
      r.Expires = now + sm.Options.Timeout * 60000000000 ∧
      (NewSession now sm uid).2 = r.Id :=
  ⟨newRecord sm.Options now uid, rfl, rfl, rfl, rfl, rfl⟩

/-- C5 (code bug): every record `NewSession` appends carries a `nil` cookie
pointer, and `SetCookie` dereferences that pointer before writing the name,
value and expiry — so for every record produced by `NewSession`, `SetCookie`
panics (`none`) instead of producing the claimed cookie descriptor. -/
theorem setCookie_faults_on_created_record (now uid : Int)
    (sm sm2 : SessionManager) (r : Session)
    (h : (NewSession now sm uid).1.Sessions = sm.Sessions ++ [r]) :
    SetCookie sm2 r = none := by
  have h2 : sm.Sessions ++ [newRecord sm.Options now uid] = sm.Sessions ++ [r] := h
  have hr : newRecord sm.Options now uid = r := by
    simpa using List.append_cancel_left h2
  rw [← hr]
  rfl

/-- A `lastMatch` hit is a member satisfying the predicate. -/
theorem lastMatch_some (p : Session → Bool) :
    ∀ (l : List Session) (r : Session), lastMatch p l = some r →
      r ∈ l ∧ p r = true := by
  intro l
  induction l with
  | nil => intro r h; exact absurd h (by simp [lastMatch])
  | cons s t ih =>
    intro r h
    rw [lastMatch] at h
    cases ht : lastMatch p t with
    | some q =>
      rw [ht] at h
      obtain ⟨hm, hp⟩ := ih q ht
      cases h
      exact ⟨List.mem_cons_of_mem _ hm, hp⟩
    | none =>
      rw [ht] at h
      by_cases hp : p s
      · rw [if_pos hp] at h
        cases h
        exact ⟨List.mem_cons_self _ _, hp⟩
      · rw [if_neg hp] at h
        cases h

/-- `lastMatch` misses exactly when no element satisfies the predicate. -/
theorem lastMatch_eq_none_iff (p : Session → Bool) :
    ∀ l : List Session, lastMatch p l = none ↔ ∀ s ∈ l, ¬ p s = true := by
  intro l
  induction l with
  | nil => simp [lastMatch]
  | cons s t ih =>
    rw [lastMatch]
    cases ht : lastMatch p t with
    | some q =>
      obtain ⟨hm, hp⟩ := lastMatch_some p t q ht
      simp only [reduceCtorEq, false_iff]
      intro hall
      exact hall q (List.mem_cons_of_mem _ hm) hp
    | none =>
      by_cases hp : p s
      · simp only [if_pos hp, reduceCtorEq, false_iff]
        intro hall
        exact hall s (List.mem_cons_self _ _) hp
      · simp only [if_neg hp]
        rw [ht] at ih
        simp only [true_iff] at ih
        simp only [true_iff, List.mem_cons]
        rintro x (rfl | hx)
        · exact hp
        · exact ih x hx

/-- The accumulator loop shared by `GetUserSession` and `SetUID`: every
match overwrites the accumulator, so the loop yields `G` of the last match,
or the initial accumulator when nothing matches. -/
theorem foldl_overwrite_eq_lastMatch {α : Type} (uid : Int) (G : Session → α) :
    ∀ (l : List Session) (acc : α),
      l.foldl (fun acc s => if s.Uid = uid then G s else acc) acc =
        match lastMatch (fun s => s.Uid == uid) l with
        | some r => G r
        | none => acc := by
  intro l
  induction l with
  | nil => intro acc; rfl
  | cons s t ih =>
    intro acc
    rw [List.foldl_cons, ih, lastMatch]
    cases ht : lastMatch (fun s => s.Uid == uid) t with
    | some r => rfl
    | none =>
      by_cases h : s.Uid = uid
      · simp [h]
      · simp [h]

/-- C8 (amended): `GetUserSession` returns the token of the *last* record in
the collection whose uid equals the argument (expiry is not re-checked), and
signals the not-found error exactly when no record's uid equals the
argument. -/
theorem getUserSession_last_match_spec (sm : SessionManager) (uid : Int) :
    (GetUserSession sm uid =
      match lastMatch (fun s => s.Uid == uid) sm.Sessions with
      | some r => (r.Id, none)
      | none => ("", some "No session found for a user with this id")) ∧
    ((GetUserSession sm uid).2 = none ↔ ∃ s ∈ sm.Sessions, s.Uid = uid) := by
  have hfold := foldl_overwrite_eq_lastMatch uid
    (fun s => ((s.Id, true) : String × Bool)) sm.Sessions ("", false)
  constructor
  · rw [GetUserSession]
    simp only at hfold
    rw [hfold]
    cases lastMatch (fun s => s.Uid == uid) sm.Sessions with
    | some r => rfl
    | none => rfl
  · rw [GetUserSession]
    simp only at hfold
    rw [hfold]
    cases ht : lastMatch (fun s => s.Uid == uid) sm.Sessions with
    | some r =>
      obtain ⟨hm, hp⟩ := lastMatch_some _ _ _ ht
      simp only [beq_iff_eq] at hp
      constructor
      · intro _
        exact ⟨r, hm, hp⟩
      · intro _
        simp
    | none =>
      rw [lastMatch_eq_none_iff] at ht
      simp only [beq_iff_eq] at ht
      constructor
      · intro h
        simp at h
      · rintro ⟨s, hs, hu⟩
        exact absurd hu (ht s hs)

/-- C3 (amended): `SetUID` signals the already-bound error — reporting the
id of the last record carrying `uid`, live or expired, since the code never
checks expiry — exactly when some record in the collection carries `uid`;
otherwise it writes `uid` into the passed record and signals success.  The
collection itself is never mutated: via the public API the passed pointer
refers to a detached copy, so the update lands only on the returned
record. -/
theorem setUID_last_holder_spec (sm : SessionManager) (sess : Session)
    (uid : Int) :
    (SetUID sm sess uid =
      match lastMatch (fun s => s.Uid == uid) sm.Sessions with
      | some r => (r.Id, some "Session already exists", sess)
      | none => ("", none, { sess with Uid := uid })) ∧
    ((SetUID sm sess uid).2.1 = none ↔ ∀ s ∈ sm.Sessions, ¬ s.Uid = uid) := by
  have hfold := foldl_overwrite_eq_lastMatch uid
    (fun s => ((s.Id, some "Session already exists") : String × Option String))
    sm.Sessions ("", none)
  constructor
  · rw [SetUID]
    simp only at hfold
    rw [hfold]
    cases lastMatch (fun s => s.Uid == uid) sm.Sessions with
    | some r => rfl
    | none => rfl
  · rw [SetUID]
    simp only at hfold
    rw [hfold]
    cases ht : lastMatch (fun s => s.Uid == uid) sm.Sessions with
    | some r =>
      obtain ⟨hm, hp⟩ := lastMatch_some _ _ _ ht
      simp only [beq_iff_eq] at hp
      constructor
      · intro h
        simp at h
      · intro hall
        exact absurd hp (hall r hm)
    | none =>
      rw [lastMatch_eq_none_iff] at ht
      simp only [beq_iff_eq] at ht
      constructor
      · intro _
        exact ht
      · intro _
        rfl

/-- C9 (amended): `GetSession` runs the sweep only after scanning a record it
does not return.  When the first record of the table is a live match for the
requested id, the call returns that record at once and performs no sweep at
all, so the table — including any expired records behind the match — is left
unchanged. -/
theorem getSession_first_match_skips_sweep (now : Int) (sm : SessionManager)
    (s : Session) (rest : List Session) (id : String)
    (hs : sm.Sessions = s :: rest) (hid : s.Id = id)
    (hlive : now < s.Expires) :
    GetSession now sm id = some (some s, none, sm) := by
  obtain ⟨opts, sessions⟩ := sm
  simp only at hs
  subst hs
  rw [GetSession]
  simp [getGo, hid, hlive]

/-- Witness for C9's amended theorem: a live first match at the head of a
table whose second record is already expired. -/
theorem getSession_first_match_skips_sweep_witness :
    GetSession 100
      { Options := ⟨"sid", "s3cret", 30⟩,
        Sessions := [⟨"w", 300, -1, none⟩, ⟨"z", 50, 7, none⟩] } "w" =
      some (some ⟨"w", 300, -1, none⟩, none,
            { Options := ⟨"sid", "s3cret", 30⟩,
              Sessions := [⟨"w", 300, -1, none⟩, ⟨"z", 50, 7, none⟩] }) :=
  getSession_first_match_skips_sweep 100 _ ⟨"w", 300, -1, none⟩
    [⟨"z", 50, 7, none⟩] "w" rfl rfl (by decide)

/-- Dropping one more element yields a subset. -/
theorem drop_succ_subset {α : Type} (l : List α) (i : Nat) :
    l.drop (i + 1) ⊆ l.drop i := by
  intro x hx
  rw [← List.drop_drop] at hx
  exact List.drop_subset 1 (l.drop i) hx

/-- Dropping more elements yields a subset. -/
theorem drop_le_subset {α : Type} (l : List α) {i j : Nat} (h : i ≤ j) :
    l.drop j ⊆ l.drop i := by
  intro x hx
  rw [show j = i + (j - i) by omega, ← List.drop_drop] at hx
  exact List.drop_subset _ _ hx

/-- If no element at or after position `i` of the backing array has id
`sid`, the delete loop finishes without touching anything. -/
theorem deleteGo_no_match (sid : String) :
    ∀ (fuel : Nat) (arr : List Session) (n i : Nat),
      (∀ s ∈ arr.drop i, ¬ s.Id = sid) →
      deleteGo sid fuel arr n i = some (arr, n) := by
  intro fuel
  induction fuel with
  | zero => intro arr n i _; rfl
  | succ fuel ih =>
    intro arr n i h
    cases hg : arr[i]? with
    | none => simp [deleteGo, hg]
    | some s =>
      have hmem : s ∈ arr.drop i := by
        have h0 : (arr.drop i)[0]? = some s := by
          rw [List.getElem?_drop]
          simpa using hg
        exact List.getElem?_mem h0
      simp only [deleteGo, hg]
      rw [if_neg (h s hmem)]
      exact ih arr n (i + 1) fun t ht => h t (drop_succ_subset arr i ht)

/-- In a table with pairwise-distinct ids, no element other than the one at
position `i` — neither before nor after it — carries that element's id. -/
theorem nodup_ids_unique_holder :
    ∀ (arr : List Session) (i : Nat) (m : Session),
      (arr.map Session.Id).Nodup → arr[i]? = some m →
      ∀ s ∈ arr.take i ++ arr.drop (i + 1), ¬ s.Id = m.Id := by
  intro arr
  induction arr with
  | nil => intro i m _ hg; simp at hg
  | cons a t ih =>
    intro i m hnd hg s hs
    rw [List.map_cons, List.nodup_cons] at hnd
    cases i with
    | zero =>
      rw [List.getElem?_cons_zero, Option.some_inj] at hg
      subst hg
      rw [List.take_zero, List.nil_append, List.drop_succ_cons,
        List.drop_zero] at hs
      intro he
      apply hnd.1
      rw [← he]
      exact List.mem_map_of_mem Session.Id hs
    | succ j =>
      rw [List.getElem?_cons_succ] at hg
      rw [List.take_succ_cons, List.drop_succ_cons, List.cons_append,
        List.mem_cons] at hs
      cases hs with
      | inl h1 =>
        subst h1
        intro he
        apply hnd.1
        rw [he]
        exact List.mem_map_of_mem Session.Id (List.getElem?_mem hg)
      | inr h2 => exact ih j m hnd.2 hg s h2

/-- On a full slice (`n` equal to the array length) the in-place removal
erases the element at `i` and re-appends a stale copy of the old last
element. -/
theorem removeAt_full (arr : List Session) (i : Nat) (h : i < arr.length) :
    removeAt arr arr.length i =
      arr.eraseIdx i ++ arr.drop (arr.length - 1) := by
  rw [removeAt, List.eraseIdx_eq_take_drop_succ]
  have hm : (arr.drop (i + 1)).take (arr.length - 1 - i) = arr.drop (i + 1) := by
    apply List.take_of_length_le
    rw [List.length_drop]
    omega
  rw [hm, List.append_assoc]

/-- The in-place removal never changes the backing array's length. -/
theorem removeAt_full_length (arr : List Session) (i : Nat)
    (h : i < arr.length) :
    (removeAt arr arr.length i).length = arr.length := by
  rw [removeAt_full arr i h, List.length_append, List.length_eraseIdx,
    if_pos h, List.length_drop]
  omega

/-- Running the delete loop on a full slice of a table with
pairwise-distinct ids, after `i` already-scanned non-matching elements,
removes exactly the matching records. -/
theorem deleteGo_nodup_spec (sid : String) :
    ∀ (fuel : Nat) (arr : List Session) (i : Nat),
      i + fuel = arr.length →
      (arr.map Session.Id).Nodup →
      (∀ s ∈ arr.take i, ¬ s.Id = sid) →
      ∃ pr : List Session × Nat,
        deleteGo sid fuel arr arr.length i = some pr ∧
        pr.1.take pr.2 = arr.filter fun s => !(s.Id == sid) := by
  intro fuel
  induction fuel with
  | zero =>
    intro arr i hlen hnd hpre
    have hall : ∀ s ∈ arr, ¬ s.Id = sid := by
      intro s hs
      apply hpre
      rw [List.take_of_length_le (by omega)]
      exact hs
    refine ⟨(arr, arr.length), rfl, ?_⟩
    rw [List.take_length,
      List.filter_eq_self.mpr fun a ha => by simpa using hall a ha]
  | succ fuel ih =>
    intro arr i hlen hnd hpre
    have hi : i < arr.length := by omega
    have hg : arr[i]? = some arr[i] := List.getElem?_eq_getElem hi
    by_cases hmatch : arr[i].Id = sid
    · -- the unique matching record: remove it, then nothing else matches
      have huniq := nodup_ids_unique_holder arr i arr[i] hnd hg
      have hrem := removeAt_full arr i hi
      have hfilter : (arr.filter fun s => !(s.Id == sid)) = arr.eraseIdx i := by
        conv_lhs => rw [← List.take_append_drop (i + 1) arr]
        rw [List.filter_append, List.take_succ, hg, Option.toList_some,
          List.filter_append]
        rw [List.filter_eq_self.mpr fun a ha => by simpa using hpre a ha]
        rw [show (List.filter (fun s => !(s.Id == sid)) [arr[i]]) = [] by
          simp [List.filter_cons, hmatch]]
        rw [List.filter_eq_self.mpr fun a ha => by
          have h2 := huniq a (List.mem_append_right _ ha)
          rw [hmatch] at h2
          simpa using h2]
        rw [List.eraseIdx_eq_take_drop_succ]
        simp
      have hnomatch :
          ∀ s ∈ (removeAt arr arr.length i).drop (i + 1), ¬ s.Id = sid := by
        intro s hs
        by_cases hlast : i + 1 < arr.length
        · rw [hrem] at hs
          have hs2 := List.drop_subset _ _ hs
          rw [List.mem_append] at hs2
          cases hs2 with
          | inl h1 =>
            rw [List.eraseIdx_eq_take_drop_succ] at h1
            have h2 := huniq s h1
            rw [hmatch] at h2
            exact h2
          | inr h2 =>
            have h3 : s ∈ arr.drop (i + 1) :=
              drop_le_subset arr (by omega) h2
            have h4 := huniq s (List.mem_append_right _ h3)
            rw [hmatch] at h4
            exact h4
        · rw [List.drop_eq_nil_of_le
            (by rw [removeAt_full_length arr i hi]; omega)] at hs
          simp at hs
      refine ⟨(removeAt arr arr.length i, arr.length - 1), ?_, ?_⟩
      · simp only [deleteGo, hg]
        rw [if_pos hmatch, if_pos (by omega : i + 1 ≤ arr.length)]
        exact deleteGo_no_match sid fuel _ _ _ hnomatch
      · rw [hrem]
        rw [List.take_left' (by rw [List.length_eraseIdx, if_pos hi])]
        rw [hfilter]
    · -- not the match: step over it
      have hpre2 : ∀ s ∈ arr.take (i + 1), ¬ s.Id = sid := by
        intro s hs
        rw [List.take_succ, hg, Option.toList_some, List.mem_append,
          List.mem_singleton] at hs
        cases hs with
        | inl h1 => exact hpre s h1
        | inr h2 => rw [h2]; exact hmatch
      obtain ⟨pr, hrun, hfil⟩ := ih arr (i + 1) (by omega) hnd hpre2
      refine ⟨pr, ?_, hfil⟩
      simp only [deleteGo, hg]
      rw [if_neg hmatch]
      exact hrun

/-- `DeleteSession` on a table with pairwise-distinct ids keeps exactly the
records whose id differs from the token. -/
theorem deleteSession_eq_filter (sm : SessionManager) (sid : String)
    (h : (sm.Sessions.map Session.Id).Nodup) :
    DeleteSession sm sid =
      some { sm with Sessions := sm.Sessions.filter fun s => !(s.Id == sid) } := by
  obtain ⟨pr, hrun, hfil⟩ :=
    deleteGo_nodup_spec sid sm.Sessions.length sm.Sessions 0 (by omega) h
      (by simp)
  rw [DeleteSession, hrun, Option.map_some', hfil]

/-- C7 (confirmed): on a table satisfying invariant I1 — pairwise-distinct
ids, the spec's standing invariant for registry states — `DeleteSession`
keeps exactly the records whose id differs from the token (in particular
deleting an absent token is a no-op), it never signals an error (the Go
function returns nothing), and a second identical call reproduces the same
final state.  On tables violating I1 the in-place removal can read stale
duplicates and even panic, so the distinct-ids hypothesis is essential. -/
theorem deleteSession_filter_and_idempotent (sm : SessionManager)
    (sid : String) (h : (sm.Sessions.map Session.Id).Nodup) :
    DeleteSession sm sid =
      some { sm with Sessions := sm.Sessions.filter fun s => !(s.Id == sid) } ∧
    DeleteSession
        { sm with Sessions := sm.Sessions.filter fun s => !(s.Id == sid) } sid =
      some { sm with Sessions := sm.Sessions.filter fun s => !(s.Id == sid) } := by
  refine ⟨deleteSession_eq_filter sm sid h, ?_⟩
  have h2 : (((sm.Sessions.filter fun s => !(s.Id == sid)).map Session.Id)).Nodup :=
    List.Nodup.sublist ((List.filter_sublist sm.Sessions).map Session.Id) h
  have hff : ((sm.Sessions.filter fun s => !(s.Id == sid)).filter
      fun s => !(s.Id == sid)) = sm.Sessions.filter fun s => !(s.Id == sid) :=
    List.filter_eq_self.mpr fun a ha =>
      @List.of_mem_filter Session (fun s => !(s.Id == sid)) a sm.Sessions ha
  have hd := deleteSession_eq_filter
    { Options := sm.Options,
      Sessions := sm.Sessions.filter fun s => !(s.Id == sid) } sid h2
  simp only at hd
  rw [hd, hff]

/-- Witness for C7: deleting `"a"` from a two-record table with distinct
ids. -/
theorem deleteSession_filter_and_idempotent_witness :
    DeleteSession
        { Options := ⟨"sid", "s3cret", 30⟩,
          Sessions := [⟨"a", 10, -1, none⟩, ⟨"b", 20, 7, none⟩] } "a" =
      some
        { Options := ⟨"sid", "s3cret", 30⟩,
          Sessions := List.filter (fun s => !(s.Id == "a"))
            [⟨"a", 10, -1, none⟩, ⟨"b", 20, 7, none⟩] } ∧
    DeleteSession
        { Options := ⟨"sid", "s3cret", 30⟩,
          Sessions := List.filter (fun s => !(s.Id == "a"))
            [⟨"a", 10, -1, none⟩, ⟨"b", 20, 7, none⟩] } "a" =
      some
        { Options := ⟨"sid", "s3cret", 30⟩,
          Sessions := List.filter (fun s => !(s.Id == "a"))
            [⟨"a", 10, -1, none⟩, ⟨"b", 20, 7, none⟩] } :=
  deleteSession_filter_and_idempotent
    { Options := ⟨"sid", "s3cret", 30⟩,
      Sessions := [⟨"a", 10, -1, none⟩, ⟨"b", 20, 7, none⟩] } "a" (by decide)

/-- The in-place removal never changes the backing array's length, for any
current slice length. -/
theorem removeAt_length (arr : List Session) (n i : Nat) (hi : i < n)
    (hn : n ≤ arr.length) : (removeAt arr n i).length = arr.length := by
  rw [removeAt, List.length_append, List.length_append, List.length_take,
    List.length_take, List.length_drop, List.length_drop]
  omega

/-- The visible slice after an in-place removal is the old visible slice
with the element at `i` erased. -/
theorem removeAt_take (arr : List Session) (n i : Nat) (hi : i < n)
    (hn : n ≤ arr.length) :
    (removeAt arr n i).take (n - 1) = (arr.take n).eraseIdx i := by
  have hlen : (arr.take i ++ (arr.drop (i + 1)).take (n - 1 - i)).length
      = n - 1 := by
    rw [List.length_append, List.length_take, List.length_take,
      List.length_drop]
    omega
  have h1 : (arr.take n).take i = arr.take i := by
    rw [List.take_take]
    congr 1
    omega
  have h2 : (arr.take n).drop (i + 1) = (arr.drop (i + 1)).take (n - 1 - i) := by
    rw [List.drop_take]
    congr 1
    omega
  rw [removeAt, List.take_left' hlen, List.eraseIdx_eq_take_drop_succ, h1, h2]

/-- The visible slice after any run of the sweep loop is a sublist of the
visible slice before it and stays within the backing array. -/
theorem clearGo_take_sublist (now : Int) :
    ∀ (fuel : Nat) (arr : List Session) (n i count : Nat)
      (res : List Session × Nat × Nat),
      clearGo now fuel arr n i count = some res → n ≤ arr.length →
      (res.1.take res.2.1).Sublist (arr.take n) ∧ res.2.1 ≤ res.1.length := by
  intro fuel
  induction fuel with
  | zero =>
    intro arr n i count res h hn
    cases h
    exact ⟨List.Sublist.refl _, hn⟩
  | succ fuel ih =>
    intro arr n i count res h hn
    cases hg : arr[i]? with
    | none =>
      simp only [clearGo, hg] at h
      cases h
      exact ⟨List.Sublist.refl _, hn⟩
    | some s =>
      simp only [clearGo, hg] at h
      by_cases hexp : s.Expires < now
      · rw [if_pos hexp] at h
        by_cases hle : i + 1 ≤ n
        · rw [if_pos hle] at h
          have hlen2 : n - 1 ≤ (removeAt arr n i).length := by
            rw [removeAt_length arr n i (by omega) hn]
            omega
          obtain ⟨hsub, hres⟩ := ih (removeAt arr n i) (n - 1) (i + 1)
            (count + 1) res h hlen2
          refine ⟨hsub.trans ?_, hres⟩
          rw [removeAt_take arr n i (by omega) hn]
          exact List.eraseIdx_sublist (arr.take n) i
        · rw [if_neg hle] at h
          simp at h
      · rw [if_neg hexp] at h
        exact ih arr n (i + 1) count res h hn

/-- The visible slice after any run of the lookup loop, with its
interleaved sweeps, is a sublist of the visible slice before it. -/
theorem getGo_take_sublist (now : Int) (id : String) :
    ∀ (fuel : Nat) (arr : List Session) (n i : Nat)
      (res : Option Session × List Session × Nat),
      getGo now id fuel arr n i = some res → n ≤ arr.length →
      (res.2.1.take res.2.2).Sublist (arr.take n) := by
  intro fuel
  induction fuel with
  | zero =>
    intro arr n i res h hn
    cases h
    exact List.Sublist.refl _
  | succ fuel ih =>
    intro arr n i res h hn
    cases hg : arr[i]? with
    | none =>
      simp only [getGo, hg] at h
      cases h
      exact List.Sublist.refl _
    | some s =>
      simp only [getGo, hg] at h
      by_cases hcond : s.Id = id ∧ now < s.Expires
      · rw [if_pos hcond] at h
        cases h
        exact List.Sublist.refl _
      · rw [if_neg hcond] at h
        cases hc : clearGo now n arr n 0 0 with
        | none =>
          rw [hc] at h
          simp at h
        | some trip =>
          obtain ⟨arr2, n2, c2⟩ := trip
          rw [hc] at h
          change getGo now id fuel arr2 n2 (i + 1) = some res at h
          obtain ⟨hsub, hlen⟩ :=
            clearGo_take_sublist now n arr n 0 0 (arr2, n2, c2) hc hn
          exact (ih arr2 n2 (i + 1) res h hlen).trans hsub

/-- The visible slice after any run of the delete loop is a sublist of the
visible slice before it and stays within the backing array. -/
theorem deleteGo_take_sublist (sid : String) :
    ∀ (fuel : Nat) (arr : List Session) (n i : Nat)
      (res : List Session × Nat),
      deleteGo sid fuel arr n i = some res → n ≤ arr.length →
      (res.1.take res.2).Sublist (arr.take n) ∧ res.2 ≤ res.1.length := by
  intro fuel
  induction fuel with
  | zero =>
    intro arr n i res h hn
    cases h
    exact ⟨List.Sublist.refl _, hn⟩
  | succ fuel ih =>
    intro arr n i res h hn
    cases hg : arr[i]? with
    | none =>
      simp only [deleteGo, hg] at h
      cases h
      exact ⟨List.Sublist.refl _, hn⟩
    | some s =>
      simp only [deleteGo, hg] at h
      by_cases hid : s.Id = sid
      · rw [if_pos hid] at h
        by_cases hle : i + 1 ≤ n
        · rw [if_pos hle] at h
          have hlen2 : n - 1 ≤ (removeAt arr n i).length := by
            rw [removeAt_length arr n i (by omega) hn]
            omega
          obtain ⟨hsub, hres⟩ := ih (removeAt arr n i) (n - 1) (i + 1) res h hlen2
          refine ⟨hsub.trans ?_, hres⟩
          rw [removeAt_take arr n i (by omega) hn]
          exact List.eraseIdx_sublist (arr.take n) i
        · rw [if_neg hle] at h
          simp at h
      · rw [if_neg hid] at h
        exact ih arr n (i + 1) res h hn

/-- The uids of the records a call sequence creates are exactly the uids
passed to its create calls. -/
theorem createdRecords_map_uid (opts : SessionOptions) :
    ∀ ops : List Op,
      (createdRecords opts ops).map Session.Uid = createdUids ops := by
  intro ops
  induction ops with
  | nil => rfl
  | cons op rest ih =>
    cases op with
    | create now uid => simp [createdRecords, createdUids, ih, newRecord]
    | lookup now id => simp [createdRecords, createdUids, ih]
    | lookupUser uid => simp [createdRecords, createdUids, ih]
    | bindUid sess uid => simp [createdRecords, createdUids, ih]
    | delete id => simp [createdRecords, createdUids, ih]
    | sweep now => simp [createdRecords, createdUids, ih]

/-- Along any successful run the options never change, and the table is a
sublist of the starting table followed by the records the run's create
calls built: no operation but `create` ever adds a record, and the others
only remove records (or leave the table alone). -/
theorem runOps_sublist :
    ∀ (ops : List Op) (sm sm2 : SessionManager),
      runOps sm ops = some sm2 →
      sm2.Options = sm.Options ∧
        sm2.Sessions.Sublist (sm.Sessions ++ createdRecords sm.Options ops) := by
  intro ops
  induction ops with
  | nil =>
    intro sm sm2 h
    cases h
    exact ⟨rfl, by simp⟩
  | cons op rest ih =>
    intro sm sm2 h
    cases op with
    | create now uid =>
      simp only [runOps, applyOp] at h
      obtain ⟨hopt, hsub⟩ := ih _ sm2 h
      simp only [NewSession] at hopt hsub
      refine ⟨hopt, ?_⟩
      simp only [createdRecords]
      rw [show sm.Sessions ++
          (newRecord sm.Options now uid :: createdRecords sm.Options rest) =
          (sm.Sessions ++ [newRecord sm.Options now uid]) ++
            createdRecords sm.Options rest by simp]
      exact hsub
    | lookup now id =>
      simp only [runOps, applyOp, GetSession] at h
      cases hgo : getGo now id sm.Sessions.length sm.Sessions
          sm.Sessions.length 0 with
      | none =>
        rw [hgo] at h
        simp at h
      | some res =>
        obtain ⟨ores, arr2, n2⟩ := res
        rw [hgo] at h
        simp only [Option.map_some'] at h
        change runOps { sm with Sessions := arr2.take n2 } rest = some sm2 at h
        obtain ⟨hopt, hsub⟩ := ih _ sm2 h
        simp only at hopt hsub
        have hsg := getGo_take_sublist now id sm.Sessions.length sm.Sessions
          sm.Sessions.length 0 (ores, arr2, n2) hgo (le_refl _)
        simp only [List.take_length] at hsg
        refine ⟨hopt, ?_⟩
        simp only [createdRecords]
        exact hsub.trans (List.Sublist.append_right hsg _)
    | lookupUser uid =>
      simp only [runOps, applyOp] at h
      obtain ⟨hopt, hsub⟩ := ih sm sm2 h
      refine ⟨hopt, ?_⟩
      simp only [createdRecords]
      exact hsub
    | bindUid sess uid =>
      simp only [runOps, applyOp] at h
      obtain ⟨hopt, hsub⟩ := ih sm sm2 h
      refine ⟨hopt, ?_⟩
      simp only [createdRecords]
      exact hsub
    | delete id =>
      simp only [runOps, applyOp, DeleteSession] at h
      cases hdel : deleteGo id sm.Sessions.length sm.Sessions
          sm.Sessions.length 0 with
      | none =>
        rw [hdel] at h
        simp at h
      | some res =>
        obtain ⟨arr2, n2⟩ := res
        rw [hdel] at h
        simp only [Option.map_some'] at h
        change runOps { sm with Sessions := arr2.take n2 } rest = some sm2 at h
        obtain ⟨hopt, hsub⟩ := ih _ sm2 h
        simp only at hopt hsub
        obtain ⟨hsg, _⟩ := deleteGo_take_sublist id sm.Sessions.length
          sm.Sessions sm.Sessions.length 0 (arr2, n2) hdel (le_refl _)
        simp only [List.take_length] at hsg
        refine ⟨hopt, ?_⟩
        simp only [createdRecords]
        exact hsub.trans (List.Sublist.append_right hsg _)
    | sweep now =>
      simp only [runOps, applyOp, ClearExpired] at h
      cases hcl : clearGo now sm.Sessions.length sm.Sessions
          sm.Sessions.length 0 0 with
      | none =>
        rw [hcl] at h
        simp at h
      | some res =>
        obtain ⟨arr2, n2, c2⟩ := res
        rw [hcl] at h
        simp only [Option.map_some'] at h
        change runOps { sm with Sessions := arr2.take n2 } rest = some sm2 at h
        obtain ⟨hopt, hsub⟩ := ih _ sm2 h
        simp only at hopt hsub
        obtain ⟨hsg, _⟩ := clearGo_take_sublist now sm.Sessions.length
          sm.Sessions sm.Sessions.length 0 0 (arr2, n2, c2) hcl (le_refl _)
        simp only [List.take_length] at hsg
        refine ⟨hopt, ?_⟩
        simp only [createdRecords]
        exact hsub.trans (List.Sublist.append_right hsg _)

/-- C10 (counterexample): two plain `create(42)` calls from a fresh registry
— `create` is among the claim's listed operations — reach a state with two
live records sharing the non-guest uid 42, refuting invariant I2:
`NewSession` performs no uniqueness check, and nothing else can, since
`SetUID` never writes into the table. -/
theorem two_creates_violate_I2 :
    ∃ sm : SessionManager,
      runOps (NewSessionManager ⟨"sid", "s3cret", 30⟩)
        [Op.create 0 42, Op.create 1 42] = some sm ∧
      ¬ NoDupLiveUid 2 sm.Sessions := by
  refine ⟨{ Options := ⟨"sid", "s3cret", 30⟩,
            Sessions := [newRecord ⟨"sid", "s3cret", 30⟩ 0 42,
                         newRecord ⟨"sid", "s3cret", 30⟩ 1 42] }, rfl, ?_⟩
  intro hpair
  rw [NoDupLiveUid] at hpair
  have h12 := List.rel_of_pairwise_cons hpair (List.mem_cons_self _ _)
  exact h12 (by decide) (by decide) (by decide) (by decide) (by decide)

/-- C10 (amended): invariant I2 — no two live records share a non-guest
uid — holds in every state reachable from a fresh registry by call
sequences whose create calls use the guest sentinel or pairwise-distinct
uids.  The table's uids can only come from create calls: `SetUID` never
writes into the table, and every other operation only removes records. -/
theorem reachable_guarded_creates_NoDupLiveUid (opts : SessionOptions)
    (ops : List Op) (sm : SessionManager) (now : Int)
    (hrun : runOps (NewSessionManager opts) ops = some sm)
    (hdist : (createdUids ops).Pairwise fun a b => a = -1 ∨ b = -1 ∨ a ≠ b) :
    NoDupLiveUid now sm.Sessions := by
  obtain ⟨_, hsub⟩ := runOps_sublist ops (NewSessionManager opts) sm hrun
  simp only [NewSessionManager, List.nil_append] at hsub
  rw [← createdRecords_map_uid opts ops] at hdist
  have hpc := List.pairwise_map.mp hdist
  have hps := List.Pairwise.sublist hsub hpc
  rw [NoDupLiveUid]
  refine hps.imp ?_
  intro a b hab ha hb _ _
  rcases hab with h1 | h1 | h1
  · exact absurd h1 ha
  · exact absurd h1 hb
  · exact h1

/-- Witness for C10's amended theorem: one create call with uid 5. -/
theorem reachable_guarded_creates_NoDupLiveUid_witness :
    NoDupLiveUid 2 [newRecord ⟨"sid", "s3cret", 30⟩ 0 5] :=
  reachable_guarded_creates_NoDupLiveUid ⟨"sid", "s3cret", 30⟩
    [Op.create 0 5]
    { Options := ⟨"sid", "s3cret", 30⟩,
      Sessions := [newRecord ⟨"sid", "s3cret", 30⟩ 0 5] } 2 rfl (by decide)

/-- Witness for C5: a concrete freshly created record. -/
theorem setCookie_faults_on_created_record_witness :
    SetCookie (NewSessionManager ⟨"sid", "s3cret", 30⟩)
      (newRecord ⟨"sid", "s3cret", 30⟩ 0 7) = none :=
  setCookie_faults_on_created_record 0 7
    (NewSessionManager ⟨"sid", "s3cret", 30⟩)
    (NewSessionManager ⟨"sid", "s3cret", 30⟩)
    (newRecord ⟨"sid", "s3cret", 30⟩ 0 7) rfl

end SimpleSessions
